import Mathlib

/-!
Verification development for the presence-aware-switch firmware.

The firmware keeps its collections in `std::map<std::string, V>`, which is a
key-sorted map iterated in lexicographic key order.  We embed such maps as
association lists `List (String × V)`; `AMap.insert` keeps the lexicographic
ordering exactly as `std::map::operator[]` assignment does, `AMap.erase`
removes the (unique) entry of a key, and folds over the list correspond to
range-for iteration over the map.

Machine integers: `unsigned long` on the target is 32 bits, so timestamp
subtraction `millis() - t` is modelled by `usub32` (subtraction mod 2^32) and
timestamp addition by addition mod 2^32.  `int` is 32-bit two's complement;
`INT_MAX` is 2147483647.  RSSI values and priorities are small, so `Int` with
the explicit `INT_MAX` constant models them.
-/

def U32 : Nat := 4294967296

/-- Wrap-around (unsigned 32-bit) subtraction, as computed by
`unsigned long a - unsigned long b` on the target. -/
def usub32 (a b : Nat) : Nat := (U32 + a % U32 - b % U32) % U32

def INT_MAX : Int := 2147483647

/-- Lexicographic order on map keys.  This is definitionally the order of
`String` (`a < b` unfolds to `a.data < b.data`), spelled on the underlying
character lists so that concrete instances reduce inside the kernel. -/
abbrev strLt (a b : String) : Prop := a.data < b.data

namespace AMap

/-- Value stored at key `k`, if any (`std::map::find` / `count`). -/
def lookup {V : Type} : List (String × V) → String → Option V
  | [], _ => none
  | e :: t, k => if e.1 = k then some e.2 else lookup t k

/-- Read with a default; models `operator[]` reads (which default-insert
`d` when the key is missing, and hence read `d` there). -/
def lookupD {V : Type} (m : List (String × V)) (k : String) (d : V) : V :=
  (lookup m k).getD d

/-- Membership test `m.count(k) > 0`. -/
def contains {V : Type} (m : List (String × V)) (k : String) : Bool :=
  (lookup m k).isSome

/-- Sorted insert-or-assign `m[k] = v`, preserving lexicographic key order. -/
def insert {V : Type} : List (String × V) → String → V → List (String × V)
  | [], k, v => [(k, v)]
  | e :: t, k, v =>
    if strLt k e.1 then (k, v) :: e :: t
    else if k = e.1 then (k, v) :: t
    else e :: insert t k v

/-- Removal of the entry of key `k`, as `m.erase(k)`. -/
def erase {V : Type} : List (String × V) → String → List (String × V)
  | [], _ => []
  | e :: t, k => if e.1 = k then t else e :: erase t k

def keys {V : Type} (m : List (String × V)) : List String := m.map Prod.fst

end AMap

/-- Nested-map assignment `outer[k1][k2] = v` (`operator[]` creates the inner
map when `k1` is absent). -/
def insert2 {V : Type} (m : List (String × List (String × V))) (k1 k2 : String) (v : V) :
    List (String × List (String × V)) :=
  AMap.insert m k1 (AMap.insert (AMap.lookupD m k1 []) k2 v)

/-!
## LedMan (LED arbiter), from src/lib/LedMan/LedMan.cpp

LED levels: `HIGH` is `true`, `LOW` is `false`.  In `LedMan::loop` the read
`priorities[caller.c_str()]` uses `std::map::operator[]`, which returns the
stored priority, or default-inserts and returns 0 when `caller` has no entry;
the read value is therefore `AMap.lookupD priorities caller 0`.  That default
insertion is observable only through later `priorities.count(c) > 0` tests for
the very same caller; the theorems below assume every caller present in
`callerStates` has an explicitly set priority (as the firmware's `setup()`
establishes for all five caller ids), under which the insertion never fires,
so the embedding keeps `priorities` immutable.
-/

structure LedMan where
  registeredLeds : List (String × Int)
  priorities : List (String × Int)
  locks : List (String × List (String × Nat))
  callerStates : List (String × List (String × Bool))

/-- Models `LedMan::addLed`. -/
def LedMan.addLed (m : LedMan) (ledPin : Int) (ledId : String) : LedMan :=
  { m with registeredLeds := AMap.insert m.registeredLeds ledId ledPin }

/-- Models `LedMan::setCallerPriority`. -/
def LedMan.setCallerPriority (m : LedMan) (caller : String) (priority : Int) : LedMan :=
  { m with priorities := AMap.insert m.priorities caller priority }

/-- Models `LedMan::lockLed`: create the lock if absent, and create an off/LOW
caller state for the LED if the caller has none. -/
def LedMan.lockLed (m : LedMan) (ledId caller : String) : LedMan :=
  if AMap.contains m.locks caller ∧ AMap.contains (AMap.lookupD m.locks caller []) ledId then
    m
  else
    let m1 := { m with locks := insert2 m.locks caller ledId 1 }
    if AMap.contains m1.callerStates caller
        ∧ AMap.contains (AMap.lookupD m1.callerStates caller []) ledId then
      m1
    else
      { m1 with callerStates := insert2 m1.callerStates caller ledId false }

/-- Models `LedMan::ledOn`: `callerStates[caller][ledId] = HIGH`. -/
def LedMan.ledOn (m : LedMan) (ledId caller : String) : LedMan :=
  { m with callerStates := insert2 m.callerStates caller ledId true }

/-- Models `LedMan::ledOff`: keep an explicit LOW state while locked, otherwise
erase the caller's state for the LED. -/
def LedMan.ledOff (m : LedMan) (ledId caller : String) : LedMan :=
  if AMap.contains m.locks caller ∧ AMap.contains (AMap.lookupD m.locks caller []) ledId then
    { m with callerStates := insert2 m.callerStates caller ledId false }
  else if AMap.contains m.callerStates caller then
    let inner := AMap.erase (AMap.lookupD m.callerStates caller []) ledId
    { m with callerStates := AMap.insert m.callerStates caller inner }
  else m

/-- One iteration of the inner loop of `LedMan::loop` for a fixed LED: a
caller that has a state for the LED takes over when `lastPriority` is still
`INT_MAX` or when its own (set) priority is `<=` the reigning one. -/
def arbStep (prios : List (String × Int)) (ledId : String)
    (acc : Bool × Int) (cs : String × List (String × Bool)) : Bool × Int :=
  match AMap.lookup cs.2 ledId with
  | none => acc
  | some lvl =>
    if acc.2 = INT_MAX ∨ (AMap.contains prios cs.1 ∧ AMap.lookupD prios cs.1 0 ≤ acc.2) then
      (lvl, AMap.lookupD prios cs.1 0)
    else acc

/-- The `calcState` computed by `LedMan::loop` for one LED: fold of
`arbStep` over the (lexicographically ordered) caller states, starting from
`calcState = LOW, lastPriority = INT_MAX`. -/
def ledCalcState (m : LedMan) (ledId : String) : Bool :=
  (m.callerStates.foldl (arbStep m.priorities ledId) (false, INT_MAX)).1

/-- Models `LedMan::loop`: for each registered LED compute its state and write the
pin only when it differs from the current level (`digitalRead`). -/
def ledWriteStep (m : LedMan) (ps : Int → Bool) (led : String × Int) : Int → Bool :=
  if ps led.2 ≠ ledCalcState m led.1 then
    fun p => if p = led.2 then ledCalcState m led.1 else ps p
  else ps

def ledManLoop (m : LedMan) (pins : Int → Bool) : Int → Bool :=
  m.registeredLeds.foldl (ledWriteStep m) pins

/-- Observation helper: the demands currently asserted on `ledId`, in caller
map (lexicographic) order — exactly the entries the inner loop of
`LedMan::loop` does not skip. -/
def demandsOn (m : LedMan) (ledId : String) : List (String × Bool) :=
  m.callerStates.filterMap (fun cs => (AMap.lookup cs.2 ledId).map (fun lvl => (cs.1, lvl)))

/-- Restriction of `arbStep` to the non-skipped entries. -/
def resStep (prios : List (String × Int)) (acc : Bool × Int) (e : String × Bool) : Bool × Int :=
  if acc.2 = INT_MAX ∨ (AMap.contains prios e.1 ∧ AMap.lookupD prios e.1 0 ≤ acc.2) then
    (e.2, AMap.lookupD prios e.1 0)
  else acc

/-!
## Gesture classification, from `doHandleButtonPresses` (release branch)

On a button-up edge with a running press timer, exactly one outcome is
committed from `elapsedMillis` in source order: factory reset, then WiFi
on/off, then learn, else nothing.  `wifiOn` is the firmware's
`triggerWifiIsOn` flag (network mode), `elapsed` is
`millis() - timerMillis` at the release tick.
-/

/-- The trigger flag set by the release evaluation of
`doHandleButtonPresses` (`triggerFactoryReset`, `triggerWifiIsOn` toggle,
`triggerDeviceLearn`, or none). -/
inductive Trigger where
  | factoryReset
  | wifiToggle
  | learn
  | noTrigger
deriving DecidableEq, Repr

/-- The four hold-duration thresholds read from `Settings`. -/
structure BtnSettings where
  triggerFactoryMillis : Nat
  triggerWiFiOnMillis : Nat
  triggerWiFiOffMillis : Nat
  triggerLearnMillis : Nat

/-- Factory defaults of the thresholds, from `Settings.h`
(`factorySettings`): learn 5000, factory 30000, wifi-on 10000,
wifi-off 5000. -/
def factoryBtnSettings : BtnSettings :=
  { triggerFactoryMillis := 30000
    triggerWiFiOnMillis := 10000
    triggerWiFiOffMillis := 5000
    triggerLearnMillis := 5000 }

/-- Release evaluation of `doHandleButtonPresses` (the
`else if (timerMillis > 0UL)` branch). -/
def releaseOutcome (s : BtnSettings) (wifiOn : Bool) (elapsed : Nat) : Trigger :=
  if ¬wifiOn ∧ elapsed > s.triggerFactoryMillis then
    Trigger.factoryReset
  else if elapsed > s.triggerWiFiOnMillis ∨ (wifiOn ∧ elapsed > s.triggerWiFiOffMillis) then
    Trigger.wifiToggle
  else if ¬wifiOn ∧ elapsed ≥ s.triggerLearnMillis then
    Trigger.learn
  else
    Trigger.noTrigger

/-!
## Sighting table, from `handleBTScanResults`, `doPurgeOldSeenDevices` and
`doCheckLearnTask`

`seenDevices : std::map<std::string, ulong>` (id -> last-seen millis) and
`seenRssis : std::map<std::string, int>` (id -> last RSSI).
-/

/-- ASCII lowercasing, for `String::equalsIgnoreCase` below. -/
def lowerStr (s : String) : String := String.mk (s.data.map Char.toLower)

def eqIgnoreCase (a b : String) : Bool := lowerStr a == lowerStr b

/-- The "not paired" sentinel stored in `pairedAddress` by factory default. -/
def sentinelAddress : String := "xx:xx:xx:xx:xx:xx"

/-- Per-advertisement body of `handleBTScanResults`: record the sighting in
both maps iff the RSSI clears `getMaxNearRssi()` and the device is accepted
by the pairing filter (learning, unpaired sentinel, or the paired id). -/
def recordSighting (maxNearRssi : Int) (paired : String) (isLearning : Bool)
    (id : String) (rssi : Int) (now : Nat)
    (seen : List (String × Nat)) (rssis : List (String × Int)) :
    List (String × Nat) × List (String × Int) :=
  if rssi > maxNearRssi then
    if isLearning ∨ eqIgnoreCase paired sentinelAddress then
      (AMap.insert seen id now, AMap.insert rssis id rssi)
    else if eqIgnoreCase paired id then
      (AMap.insert seen id now, AMap.insert rssis id rssi)
    else (seen, rssis)
  else (seen, rssis)

/-- Models `doPurgeOldSeenDevices(wifiOnMillis)` at time `now` (= `millis()`):
with a nonzero suspended duration every timestamp is bumped by it (mod
2^32, `ulong` addition) and nothing is evaluated for expiry; otherwise the
entries with `millis() - lastSeen > maxNotSeenMillis` are erased from both
maps. -/
def purge (now wifiOnMillis maxNotSeen : Nat)
    (seen : List (String × Nat)) (rssis : List (String × Int)) :
    List (String × Nat) × List (String × Int) :=
  if seen.length > 0 then
    if wifiOnMillis ≠ 0 then
      (seen.map (fun p => (p.1, (p.2 + wifiOnMillis) % U32)), rssis)
    else
      let purgeList := (seen.filter (fun p => decide (usub32 now p.2 > maxNotSeen))).map Prod.fst
      (purgeList.foldl AMap.erase seen, purgeList.foldl AMap.erase rssis)
  else (seen, rssis)

/-- The nearest-device selection loop of `doCheckLearnTask`: fold over
`seenDevices` in lexicographic id order starting from
`nearestId = "", nearestRssi = -999`; an entry takes over when the reigning
id is still empty or its RSSI is strictly greater.  `seenRssis[id]` is an
`operator[]` read, modelled by `lookupD _ _ 0` (see the LedMan note). -/
def nearestFold (rssis : List (String × Int)) (seen : List (String × Nat)) : String × Int :=
  seen.foldl
    (fun acc p =>
      if acc.1 = "" ∨ AMap.lookupD rssis p.1 0 > acc.2 then
        (p.1, AMap.lookupD rssis p.1 0)
      else acc)
    ("", -999)

/-- Completion step of `doCheckLearnTask` once the discovery window has
elapsed: pick the nearest id, and if it differs (ignoring case) from the
stored pairing target, persist it via `setParedAddress` + `saveSettings`.
Returns the resulting pairing target and whether a save occurred. -/
def learnComplete (seen : List (String × Nat)) (rssis : List (String × Int))
    (paired : String) : String × Bool :=
  let nearestId := (nearestFold rssis seen).1
  if ¬ eqIgnoreCase paired nearestId then (nearestId, true) else (paired, false)

/-- One recorded-sighting or purge event, with the ambient flag/setting
values in force when it happens. -/
inductive SightOp where
  | sighting (maxNearRssi : Int) (paired : String) (isLearning : Bool)
      (id : String) (rssi : Int) (now : Nat)
  | purging (now wifiOnMillis maxNotSeen : Nat)

def applyOp (st : List (String × Nat) × List (String × Int)) :
    SightOp → List (String × Nat) × List (String × Int)
  | SightOp.sighting mn p l id r n => recordSighting mn p l id r n st.1 st.2
  | SightOp.purging n w mx => purge n w mx st.1 st.2

def runOps (st : List (String × Nat) × List (String × Int)) (ops : List SightOp) :
    List (String × Nat) × List (String × Int) :=
  ops.foldl applyOp st

/-!
## Scan supervisor, from `doBTScan`
-/

structure ScanState where
  firstRun : Bool
  wifiOnStartMillis : Nat
  isScanning : Bool
  isWifiIsOn : Bool
  scanningWatchdogMillis : Nat
  btScanWDExpos : Nat
  seen : List (String × Nat)
  rssis : List (String × Int)

/-- One call of `doBTScan` at time `now` (= `millis()`).  The radio-driver
calls (`clearResults/stop/setActiveScan/start`) have no effect on the
modelled state beyond `isScanning := true`; the completion callback (which
would set `isScanning` back to false) is a separate event and does not occur
inside this function. -/
def doBTScanTick (maxNotSeen : Nat) (s : ScanState) (now : Nat) : ScanState :=
  let wdExpired := usub32 now s.scanningWatchdogMillis > 15000
  if ¬s.isWifiIsOn then
    let s1 :=
      if ¬s.isScanning ∨ wdExpired then
        let s0 :=
          if wdExpired ∨ s.firstRun then
            { s with
                btScanWDExpos :=
                  if ¬s.firstRun then (s.btScanWDExpos + 1) % U32 else s.btScanWDExpos
                firstRun := false }
          else s
        { s0 with isScanning := true, scanningWatchdogMillis := now }
      else s
    let wifiOnMillis := if s1.wifiOnStartMillis = 0 then 0 else usub32 now s1.wifiOnStartMillis
    let pr := purge now wifiOnMillis maxNotSeen s1.seen s1.rssis
    { s1 with wifiOnStartMillis := 0, seen := pr.1, rssis := pr.2 }
  else
    { s with
        wifiOnStartMillis := if s.wifiOnStartMillis = 0 then now else s.wifiOnStartMillis
        scanningWatchdogMillis := now }

/-!
## Relay switching, from `doHandleOnOffSwitching` / `doDeterminePairedDeviceProximity`
-/

/-- Models `doDeterminePairedDeviceProximity`:
`seenDevices.count(getParedAddress().c_str()) > 0`. -/
def derivedOnState (seen : List (String × Nat)) (paired : String) : Bool :=
  AMap.contains seen paired

structure RelayState where
  onState : Bool
  devicePin : Bool

/-- One call of `doHandleOnOffSwitching`: refresh `onState` from presence,
then write `CONTROLLED_DEVICE_PIN` only when it disagrees with
`digitalRead`.  The returned flag records whether a `digitalWrite` was
issued. -/
def switchTick (seen : List (String × Nat)) (paired : String) (st : RelayState) :
    RelayState × Bool :=
  let st1 : RelayState := { st with onState := derivedOnState seen paired }
  if st1.onState ∧ st1.devicePin = false then
    ({ st1 with devicePin := true }, true)
  else if ¬st1.onState ∧ st1.devicePin = true then
    ({ st1 with devicePin := false }, true)
  else (st1, false)

/-- One step of a run of `doHandleOnOffSwitching` calls: advance the relay
state and count the `digitalWrite`, if any. -/
def relayStep (paired : String) (acc : RelayState × Nat)
    (seen : List (String × Nat)) : RelayState × Nat :=
  let r := switchTick seen paired acc.1
  (r.1, acc.2 + (if r.2 then 1 else 0))

/-- A run of `doHandleOnOffSwitching` calls over successive sighting tables,
counting `digitalWrite` calls. -/
def relayRun (paired : String) (st : RelayState) (tables : List (List (String × Nat))) :
    RelayState × Nat :=
  tables.foldl (relayStep paired) (st, 0)

/-!
## Arbitration lemmas (LedMan::loop)
-/

theorem foldl_arb_eq (prios : List (String × Int)) (ledId : String) :
    ∀ (l : List (String × List (String × Bool))) (acc : Bool × Int),
      l.foldl (arbStep prios ledId) acc
        = (l.filterMap (fun cs => (AMap.lookup cs.2 ledId).map (fun lvl => (cs.1, lvl)))).foldl
            (resStep prios) acc := by
  intro l
  induction l with
  | nil => intro acc; rfl
  | cons cs t ih =>
    intro acc
    simp only [List.foldl_cons, List.filterMap_cons]
    cases h : AMap.lookup cs.2 ledId with
    | none =>
      simp only [Option.map_none, arbStep, h]
      exact ih acc
    | some lvl =>
      simp only [Option.map_some, arbStep, h, List.foldl_cons]
      exact ih _

theorem ledCalcState_eq_demands (m : LedMan) (ledId : String) :
    ledCalcState m ledId
      = ((demandsOn m ledId).foldl (resStep m.priorities) (false, INT_MAX)).1 := by
  unfold ledCalcState demandsOn
  rw [foldl_arb_eq]

/-- Scan characterization of the inner loop of `LedMan::loop`: when every
asserting caller has a set priority below `INT_MAX`, the fold ends on some
asserting entry whose priority is minimal among all asserting entries. -/
theorem resFold_min (prios : List (String × Int)) :
    ∀ (l : List (String × Bool)),
      (∀ e ∈ l, AMap.contains prios e.1 = true ∧ AMap.lookupD prios e.1 0 < INT_MAX) →
      l ≠ [] →
      ∃ e, e ∈ l ∧ l.foldl (resStep prios) (false, INT_MAX) = (e.2, AMap.lookupD prios e.1 0)
        ∧ ∀ f ∈ l, AMap.lookupD prios e.1 0 ≤ AMap.lookupD prios f.1 0 := by
  intro l
  induction l using List.reverseRecOn with
  | nil => intro _ h; exact absurd rfl h
  | append_singleton l x ih =>
    intro hall _
    rcases eq_or_ne l [] with rfl | hl
    · refine ⟨x, by simp, ?_, ?_⟩
      · simp [resStep]
      · intro f hf
        simp only [List.nil_append, List.mem_singleton] at hf
        subst hf
        exact le_refl _
    · have halll : ∀ e ∈ l, AMap.contains prios e.1 = true
          ∧ AMap.lookupD prios e.1 0 < INT_MAX := by
        intro e he
        exact hall e (List.mem_append.mpr (Or.inl he))
      obtain ⟨e, hel, heq, hmin⟩ := ih halll hl
      rw [List.foldl_append, heq]
      simp only [List.foldl_cons, List.foldl_nil]
      have hpe : AMap.lookupD prios e.1 0 < INT_MAX := (halll e hel).2
      have hx : AMap.contains prios x.1 = true :=
        (hall x (List.mem_append.mpr (Or.inr (List.mem_singleton.mpr rfl)))).1
      by_cases hle : AMap.lookupD prios x.1 0 ≤ AMap.lookupD prios e.1 0
      · have hstep : resStep prios (e.2, AMap.lookupD prios e.1 0) x
            = (x.2, AMap.lookupD prios x.1 0) := by
          unfold resStep
          rw [if_pos (Or.inr ⟨hx, hle⟩)]
        refine ⟨x, List.mem_append.mpr (Or.inr (List.mem_singleton.mpr rfl)), hstep, ?_⟩
        intro f hf
        rcases List.mem_append.mp hf with hf | hf
        · exact le_trans hle (hmin f hf)
        · rw [List.mem_singleton.mp hf]
      · have hstep : resStep prios (e.2, AMap.lookupD prios e.1 0) x
            = (e.2, AMap.lookupD prios e.1 0) := by
          unfold resStep
          rw [if_neg]
          rintro (h | ⟨-, h⟩)
          · exact absurd h (ne_of_lt hpe)
          · exact hle h
        refine ⟨e, List.mem_append.mpr (Or.inl hel), hstep, ?_⟩
        intro f hf
        rcases List.mem_append.mp hf with hf | hf
        · exact hmin f hf
        · rw [List.mem_singleton.mp hf]
          exact le_of_not_le hle

theorem ledWriteFold_untouched (m : LedMan) :
    ∀ (regs : List (String × Int)) (ps : Int → Bool) (p : Int),
      (∀ r ∈ regs, r.2 ≠ p) →
      regs.foldl (ledWriteStep m) ps p = ps p := by
  intro regs
  induction regs with
  | nil => intro ps p _; rfl
  | cons r t ih =>
    intro ps p hne
    simp only [List.foldl_cons]
    rw [ih _ _ (fun b hb => hne b (List.mem_cons_of_mem r hb))]
    unfold ledWriteStep
    split
    · have : ¬ p = r.2 := fun h => hne r (List.mem_cons_self r t) h.symm
      simp [this]
    · rfl

theorem ledWriteStep_at (m : LedMan) (ps : Int → Bool) (led : String × Int) :
    ledWriteStep m ps led led.2 = ledCalcState m led.1 := by
  unfold ledWriteStep
  split
  · simp
  · next h => exact not_not.mp (fun hne => h hne)

theorem ledManLoop_at (m : LedMan) :
    ∀ (regs : List (String × Int)) (ps : Int → Bool) (ledId : String) (pin : Int),
      regs.Pairwise (fun a b => a.2 ≠ b.2) →
      (ledId, pin) ∈ regs →
      regs.foldl (ledWriteStep m) ps pin = ledCalcState m ledId := by
  intro regs
  induction regs with
  | nil => intro ps ledId pin _ hmem; exact absurd hmem (List.not_mem_nil _)
  | cons r t ih =>
    intro ps ledId pin hpw hmem
    rw [List.pairwise_cons] at hpw
    rcases List.mem_cons.mp hmem with hmem | hmem
    · subst hmem
      simp only [List.foldl_cons]
      rw [ledWriteFold_untouched m t _ pin (fun b hb => (hpw.1 b hb).symm)]
      exact ledWriteStep_at m ps (ledId, pin)
    · simp only [List.foldl_cons]
      exact ih _ _ _ hpw.2 hmem

/-- The demand table of the spec's arbitration example, built with the
arbiter's own operations: caller A has priority 10 and a locked-off demand
on the LED, caller B has priority 2 and demands on. -/
def exampleMan : LedMan :=
  ((((({ registeredLeds := [], priorities := [], locks := [], callerStates := [] } :
      LedMan).addLed 13 "led1").setCallerPriority "A" 10).setCallerPriority
      "B" 2).lockLed "led1" "A").ledOn "led1" "B"

/-- C1: after a tick of the arbiter (`LedMan::loop`), a registered LED's
resolved output equals the level demanded by the caller with the strictly
smallest priority number among callers asserting a demand on it (a
locked-off demand is such an assertion, since `lockLed` materializes a LOW
caller state), equals off when no caller asserts, and in the concrete
example with demands (A, priority 10, off, locked) and (B, priority 2, on)
the resolved output is on. -/
theorem ledman_arbitration (m : LedMan) (ledId : String) (pin : Int) (pins : Int → Bool)
    (hreg : (ledId, pin) ∈ m.registeredLeds)
    (hpins : m.registeredLeds.Pairwise (fun a b => a.2 ≠ b.2))
    (hprio : ∀ cs ∈ m.callerStates,
      AMap.contains m.priorities cs.1 = true
        ∧ AMap.lookupD m.priorities cs.1 0 < INT_MAX) :
    (∀ c lvl, (c, lvl) ∈ demandsOn m ledId →
        (∀ e ∈ demandsOn m ledId, e ≠ (c, lvl) →
          AMap.lookupD m.priorities c 0 < AMap.lookupD m.priorities e.1 0) →
        ledManLoop m pins pin = lvl)
    ∧ (demandsOn m ledId = [] → ledManLoop m pins pin = false)
    ∧ ledManLoop exampleMan (fun _ => false) 13 = true := by
  have hloop : ledManLoop m pins pin = ledCalcState m ledId :=
    ledManLoop_at m m.registeredLeds pins ledId pin hpins hreg
  have hall : ∀ e ∈ demandsOn m ledId,
      AMap.contains m.priorities e.1 = true
        ∧ AMap.lookupD m.priorities e.1 0 < INT_MAX := by
    intro e he
    obtain ⟨cs, hcs, hmap⟩ := List.mem_filterMap.mp he
    obtain ⟨lvl, -, hlvl⟩ := Option.map_eq_some'.mp hmap
    have : e.1 = cs.1 := by rw [← hlvl]
    rw [this]
    exact hprio cs hcs
  refine ⟨?_, ?_, ?_⟩
  · intro c lvl hc huniq
    have hne : demandsOn m ledId ≠ [] := by
      intro h
      rw [h] at hc
      exact absurd hc (List.not_mem_nil _)
    obtain ⟨e, hel, heq, hmin⟩ := resFold_min m.priorities (demandsOn m ledId) hall hne
    have hec : e = (c, lvl) := by
      by_contra hne2
      exact absurd (hmin (c, lvl) hc) (not_le.mpr (huniq e hel hne2))
    rw [hloop, ledCalcState_eq_demands, heq, hec]
  · intro h
    rw [hloop, ledCalcState_eq_demands, h]
    rfl
  · decide

theorem ledman_arbitration_witness :
    ledManLoop exampleMan (fun _ => false) 13 = true :=
  (ledman_arbitration exampleMan "led1" 13 (fun _ => false) (by decide) (by decide)
      (by decide)).1 "B" true (by decide) (by decide)

/-- C10: with exactly two callers asserting on a LED at equal priority, the
comparison `priorities[caller] <= lastPriority` in `LedMan::loop` accepts
the equal priority, so the caller iterated last in the (lexicographically
ordered) caller map — the lexicographically larger caller id — wins. -/
theorem ledman_equal_priority_tiebreak (m : LedMan) (a b ledId : String) (pin : Int)
    (la lb : Bool) (p : Int) (pins : Int → Bool)
    (hcs : m.callerStates = [(a, [(ledId, la)]), (b, [(ledId, lb)])])
    (hab : strLt a b)
    (hpa : AMap.lookup m.priorities a = some p)
    (hpb : AMap.lookup m.priorities b = some p)
    (hreg : (ledId, pin) ∈ m.registeredLeds)
    (hpins : m.registeredLeds.Pairwise (fun a b => a.2 ≠ b.2)) :
    ledManLoop m pins pin = lb := by
  have hloop : ledManLoop m pins pin = ledCalcState m ledId :=
    ledManLoop_at m m.registeredLeds pins ledId pin hpins hreg
  rw [hloop]
  unfold ledCalcState
  rw [hcs]
  simp only [List.foldl_cons, List.foldl_nil]
  have hstep1 : arbStep m.priorities ledId (false, INT_MAX) (a, [(ledId, la)])
      = (la, AMap.lookupD m.priorities a 0) := by
    unfold arbStep
    simp [AMap.lookup]
  have hcond : AMap.lookupD m.priorities a 0 = INT_MAX
      ∨ (AMap.contains m.priorities b
          ∧ AMap.lookupD m.priorities b 0 ≤ AMap.lookupD m.priorities a 0) := by
    refine Or.inr ⟨?_, ?_⟩
    · simp [AMap.contains, hpb]
    · simp [AMap.lookupD, hpa, hpb]
  have hstep2 : arbStep m.priorities ledId (la, AMap.lookupD m.priorities a 0)
      (b, [(ledId, lb)]) = (lb, AMap.lookupD m.priorities b 0) := by
    unfold arbStep
    simp only [AMap.lookup, eq_self_iff_true, if_true]
    rw [if_pos hcond]
  rw [hstep1, hstep2]

theorem ledman_equal_priority_tiebreak_witness :
    ledManLoop
      { registeredLeds := [("led1", 13)], priorities := [("A", 5), ("B", 5)],
        locks := [], callerStates := [("A", [("led1", false)]), ("B", [("led1", true)])] }
      (fun _ => false) 13 = true :=
  ledman_equal_priority_tiebreak
    { registeredLeds := [("led1", 13)], priorities := [("A", 5), ("B", 5)],
      locks := [], callerStates := [("A", [("led1", false)]), ("B", [("led1", true)])] }
    "A" "B" "led1" 13 false true 5 (fun _ => false) rfl (by decide) (by decide) (by decide)
    (by decide) (by decide)

/-!
## Gesture theorems

With the firmware's factory thresholds (`learn 5000 < wifiOn 10000 <
factory 30000`) the release evaluation checks the WiFi branch before the
Learn branch, so WiFi toggle — not Learn — wins for holds longer than
`triggerWiFiOnMillis`, and factory reset needs a strictly longer hold than
`triggerFactoryMillis` with network mode inactive.
-/

/-- C2 counterexample: with the factory thresholds, a press released while
network mode is inactive at `elapsed = 20000` — which is at least
`triggerLearnMillis = 5000` and below `triggerFactoryMillis = 30000` —
commits WifiToggle, not Learn. -/
theorem learn_precedence_cex :
    factoryBtnSettings.triggerLearnMillis = 5000
    ∧ factoryBtnSettings.triggerFactoryMillis = 30000
    ∧ factoryBtnSettings.triggerLearnMillis ≤ 20000
    ∧ 20000 < factoryBtnSettings.triggerFactoryMillis
    ∧ releaseOutcome factoryBtnSettings false 20000 = Trigger.wifiToggle
    ∧ ¬ releaseOutcome factoryBtnSettings false 20000 = Trigger.learn := by
  decide

/-- C2 amended: a press cycle released while network mode is inactive
commits Learn exactly on the window `triggerLearnMillis ≤ elapsed ≤
triggerWiFiOnMillis` (with `elapsed ≤ triggerFactoryMillis`); above
`triggerWiFiOnMillis` the WiFi branch is evaluated first and the outcome is
never Learn. -/
theorem gesture_learn_window (s : BtnSettings) (elapsed : Nat)
    (h1 : s.triggerLearnMillis ≤ elapsed)
    (h2 : elapsed ≤ s.triggerWiFiOnMillis)
    (h3 : elapsed ≤ s.triggerFactoryMillis) :
    releaseOutcome s false elapsed = Trigger.learn
    ∧ ∀ e2, s.triggerWiFiOnMillis < e2 → ¬ releaseOutcome s false e2 = Trigger.learn := by
  constructor
  · unfold releaseOutcome
    rw [if_neg (fun hc => absurd hc.2 (by omega)),
      if_neg (by simp only [Bool.false_eq_true, false_and, or_false]; omega),
      if_pos ⟨by simp, h1⟩]
  · intro e2 he2 hlearn
    unfold releaseOutcome at hlearn
    by_cases hf : e2 > s.triggerFactoryMillis
    · rw [if_pos ⟨by simp, hf⟩] at hlearn
      exact absurd hlearn (by decide)
    · rw [if_neg (fun hc => hf hc.2), if_pos (Or.inl he2)] at hlearn
      exact absurd hlearn (by decide)

theorem gesture_learn_window_witness :
    releaseOutcome factoryBtnSettings false 6000 = Trigger.learn
    ∧ ¬ releaseOutcome factoryBtnSettings false 20000 = Trigger.learn :=
  ⟨(gesture_learn_window factoryBtnSettings 6000 (by decide) (by decide) (by decide)).1,
    (gesture_learn_window factoryBtnSettings 6000 (by decide) (by decide) (by decide)).2
      20000 (by decide)⟩

/-- C3 counterexample: a press released at exactly
`elapsed = triggerFactoryMillis = 30000` with network mode inactive commits
WifiToggle (the factory branch needs a strictly greater hold), and a press
released at `elapsed = 35000 ≥ triggerFactoryMillis` with network mode
active also commits WifiToggle — factory reset is not emitted "regardless
of mode". -/
theorem factory_release_cex :
    factoryBtnSettings.triggerFactoryMillis ≤ 30000
    ∧ releaseOutcome factoryBtnSettings false 30000 = Trigger.wifiToggle
    ∧ ¬ releaseOutcome factoryBtnSettings false 30000 = Trigger.factoryReset
    ∧ factoryBtnSettings.triggerFactoryMillis ≤ 35000
    ∧ releaseOutcome factoryBtnSettings true 35000 = Trigger.wifiToggle
    ∧ ¬ releaseOutcome factoryBtnSettings true 35000 = Trigger.factoryReset := by
  decide

/-- C3 amended: a press cycle released while network mode is inactive with
`elapsed` strictly greater than `triggerFactoryMillis` commits
FactoryReset. -/
theorem factory_release_inactive (s : BtnSettings) (elapsed : Nat)
    (h : elapsed > s.triggerFactoryMillis) :
    releaseOutcome s false elapsed = Trigger.factoryReset := by
  unfold releaseOutcome
  rw [if_pos ⟨by simp, h⟩]

theorem factory_release_inactive_witness :
    releaseOutcome factoryBtnSettings false 30001 = Trigger.factoryReset :=
  factory_release_inactive factoryBtnSettings 30001 (by decide)

/-!
## Association-map lemmas
-/

theorem usub32_of_le {a b : Nat} (h : b ≤ a) (ha : a < U32) : usub32 a b = a - b := by
  unfold usub32
  rw [Nat.mod_eq_of_lt ha, Nat.mod_eq_of_lt (lt_of_le_of_lt h ha)]
  have : U32 + a - b = U32 + (a - b) := by omega
  rw [this, Nat.add_mod_left, Nat.mod_eq_of_lt (by omega)]

theorem AMap.lookup_mem {V : Type} {m : List (String × V)} {k : String} {v : V}
    (h : AMap.lookup m k = some v) : (k, v) ∈ m := by
  induction m with
  | nil => exact absurd h (by simp [AMap.lookup])
  | cons e t ih =>
    unfold AMap.lookup at h
    by_cases he : e.1 = k
    · rw [if_pos he] at h
      have : e = (k, v) := Prod.ext he (Option.some_injective _ h)
      rw [← this]
      exact List.mem_cons_self e t
    · rw [if_neg he] at h
      exact List.mem_cons_of_mem e (ih h)

theorem AMap.lookup_eq_none {V : Type} {m : List (String × V)} {k : String} :
    AMap.lookup m k = none ↔ k ∉ AMap.keys m := by
  induction m with
  | nil => simp [AMap.lookup, AMap.keys]
  | cons e t ih =>
    unfold AMap.lookup
    by_cases he : e.1 = k
    · simp [AMap.keys, if_pos he, he]
    · simp only [if_neg he, AMap.keys, List.map_cons, List.mem_cons, ih]
      constructor
      · rintro hn (h | h)
        · exact he h.symm
        · exact hn h
      · intro hn
        exact fun h => hn (Or.inr h)

theorem AMap.lookup_map_value {V W : Type} (f : V → W) (m : List (String × V)) (k : String) :
    AMap.lookup (m.map (fun p => (p.1, f p.2))) k = (AMap.lookup m k).map f := by
  induction m with
  | nil => rfl
  | cons e t ih =>
    simp only [List.map_cons]
    unfold AMap.lookup
    by_cases he : e.1 = k
    · simp [he]
    · simp only [he, if_neg he, if_false]
      exact ih

theorem AMap.erase_sublist {V : Type} (m : List (String × V)) (k : String) :
    (AMap.erase m k).Sublist m := by
  induction m with
  | nil => exact List.Sublist.refl _
  | cons e t ih =>
    unfold AMap.erase
    by_cases he : e.1 = k
    · rw [if_pos he]
      exact List.sublist_cons_self e t
    · rw [if_neg he]
      exact List.Sublist.cons₂ e ih

theorem AMap.keys_nodup_erase {V : Type} {m : List (String × V)} {k : String}
    (h : (AMap.keys m).Nodup) : (AMap.keys (AMap.erase m k)).Nodup :=
  List.Nodup.sublist (List.Sublist.map Prod.fst (AMap.erase_sublist m k)) h

theorem AMap.lookup_erase_self {V : Type} {m : List (String × V)} {k : String}
    (h : (AMap.keys m).Nodup) : AMap.lookup (AMap.erase m k) k = none := by
  induction m with
  | nil => rfl
  | cons e t ih =>
    simp only [AMap.keys, List.map_cons, List.nodup_cons] at h
    unfold AMap.erase
    by_cases he : e.1 = k
    · rw [if_pos he]
      rw [AMap.lookup_eq_none]
      rw [← he]
      exact h.1
    · rw [if_neg he]
      unfold AMap.lookup
      rw [if_neg he]
      exact ih h.2

theorem AMap.lookup_none_of_sublist {V : Type} {m1 m2 : List (String × V)} {k : String}
    (hsub : m1.Sublist m2) (h : AMap.lookup m2 k = none) : AMap.lookup m1 k = none := by
  rw [AMap.lookup_eq_none] at h ⊢
  exact fun hk => h (List.Sublist.mem hk (List.Sublist.map Prod.fst hsub))

theorem AMap.eraseAll_sublist {V : Type} (ids : List String) :
    ∀ (m : List (String × V)), (ids.foldl AMap.erase m).Sublist m := by
  induction ids with
  | nil => intro m; exact List.Sublist.refl m
  | cons i t ih =>
    intro m
    exact List.Sublist.trans (ih (AMap.erase m i)) (AMap.erase_sublist m i)

theorem AMap.lookup_eraseAll_mem {V : Type} (ids : List String) :
    ∀ (m : List (String × V)) (k : String), k ∈ ids → (AMap.keys m).Nodup →
      AMap.lookup (ids.foldl AMap.erase m) k = none := by
  induction ids with
  | nil => intro m k hk _; exact absurd hk (List.not_mem_nil k)
  | cons i t ih =>
    intro m k hk hnd
    simp only [List.foldl_cons]
    rcases List.mem_cons.mp hk with hk | hk
    · subst hk
      exact AMap.lookup_none_of_sublist (AMap.eraseAll_sublist t _)
        (AMap.lookup_erase_self hnd)
    · exact ih (AMap.erase m i) k hk (AMap.keys_nodup_erase hnd)

theorem strLt_irrefl (a : String) : ¬ strLt a a := lt_irrefl a.data

theorem keys_nodup_of_sorted {V : Type} {m : List (String × V)}
    (h : m.Pairwise (fun p q => strLt p.1 q.1)) : (AMap.keys m).Nodup := by
  unfold AMap.keys
  rw [List.Nodup, List.pairwise_map]
  refine h.imp ?_
  intro a b hlt he
  exact strLt_irrefl b.1 (he ▸ hlt)

/-!
## Purge behaviour (C4)
-/

/-- C4: a record last seen at `t0` with no further sighting is gone after
`purge(t0 + maxNotSeenMillis + 1, 0)`; after `purge(t0 + 1, 1000)` it is
still present with its timestamp shifted forward by the suspended duration;
and with any nonzero suspended duration no record is evaluated for expiry —
every entry survives with its timestamp shifted, and the RSSI map is left
untouched. -/
theorem purge_record_lifecycle (seen : List (String × Nat)) (rssis : List (String × Int))
    (id : String) (t0 maxNS : Nat)
    (hsort : seen.Pairwise (fun p q => strLt p.1 q.1))
    (hmem : AMap.lookup seen id = some t0)
    (hbound : t0 + maxNS + 1 < U32) :
    AMap.lookup (purge (t0 + maxNS + 1) 0 maxNS seen rssis).1 id = none
    ∧ AMap.lookup (purge (t0 + 1) 1000 maxNS seen rssis).1 id = some ((t0 + 1000) % U32)
    ∧ ∀ (now susp : Nat) (id2 : String), susp ≠ 0 →
        AMap.lookup (purge now susp maxNS seen rssis).1 id2
          = (AMap.lookup seen id2).map (fun t => (t + susp) % U32)
        ∧ (purge now susp maxNS seen rssis).2 = rssis := by
  have hne : seen ≠ [] := by
    intro h
    rw [h] at hmem
    exact absurd hmem (by simp [AMap.lookup])
  have hlen : seen.length > 0 := List.length_pos.mpr hne
  have hbump : ∀ (now susp : Nat), susp ≠ 0 →
      purge now susp maxNS seen rssis
        = (seen.map (fun p => (p.1, (p.2 + susp) % U32)), rssis) := by
    intro now susp hsusp
    unfold purge
    rw [if_pos hlen, if_pos hsusp]
  refine ⟨?_, ?_, ?_⟩
  · unfold purge
    rw [if_pos hlen, if_neg (by simp)]
    have hfmem : (id, t0) ∈ seen.filter (fun p => decide (usub32 (t0 + maxNS + 1) p.2 > maxNS)) := by
      refine List.mem_filter.mpr ⟨AMap.lookup_mem hmem, ?_⟩
      have h1 : usub32 (t0 + maxNS + 1) t0 = t0 + maxNS + 1 - t0 :=
        usub32_of_le (by omega) hbound
      have h2 : usub32 (t0 + maxNS + 1) t0 = maxNS + 1 := by omega
      simp only [h2]
      exact decide_eq_true (by omega)
    exact AMap.lookup_eraseAll_mem _ seen id
      (List.mem_map.mpr ⟨(id, t0), hfmem, rfl⟩) (keys_nodup_of_sorted hsort)
  · rw [hbump (t0 + 1) 1000 (by omega)]
    have h1 := AMap.lookup_map_value (fun t => (t + 1000) % U32) seen id
    simp only [h1, hmem]
    rfl
  · intro now susp id2 hsusp
    rw [hbump now susp hsusp]
    exact ⟨AMap.lookup_map_value (fun t => (t + susp) % U32) seen id2, rfl⟩

theorem purge_record_lifecycle_witness :
    AMap.lookup (purge 16 0 10 [("aa", 5)] [("aa", -40)]).1 "aa" = none
    ∧ AMap.lookup (purge 6 1000 10 [("aa", 5)] [("aa", -40)]).1 "aa" = some 1005 :=
  ⟨(purge_record_lifecycle [("aa", 5)] [("aa", -40)] "aa" 5 10 (by simp)
      (by decide) (by decide)).1,
    (purge_record_lifecycle [("aa", 5)] [("aa", -40)] "aa" 5 10 (by simp)
      (by decide) (by decide)).2.1⟩

/-!
## Key-set invariant (C5)
-/

theorem AMap.keys_insert_congr {V W : Type} (k : String) (v : V) (w : W) :
    ∀ (m1 : List (String × V)) (m2 : List (String × W)),
      AMap.keys m1 = AMap.keys m2 →
      AMap.keys (AMap.insert m1 k v) = AMap.keys (AMap.insert m2 k w) := by
  intro m1
  induction m1 with
  | nil =>
    intro m2 h
    cases m2 with
    | nil => rfl
    | cons b t2 => exact absurd h (by simp [AMap.keys])
  | cons a t1 ih =>
    intro m2 h
    cases m2 with
    | nil => exact absurd h (by simp [AMap.keys])
    | cons b t2 =>
      simp only [AMap.keys, List.map_cons, List.cons.injEq] at h
      obtain ⟨h1, h2⟩ := h
      unfold AMap.insert
      rw [← h1]
      by_cases hlt : strLt k a.1
      · rw [if_pos hlt, if_pos hlt]
        simp [AMap.keys, h1, h2]
      · rw [if_neg hlt, if_neg hlt]
        by_cases heq : k = a.1
        · rw [if_pos heq, if_pos heq]
          simp [AMap.keys, h2]
        · rw [if_neg heq, if_neg heq]
          have htail := ih t2 (by simpa [AMap.keys] using h2)
          simp only [AMap.keys, List.map_cons] at htail ⊢
          rw [h1, htail]

theorem AMap.keys_erase_congr (k : String) {V W : Type} :
    ∀ (m1 : List (String × V)) (m2 : List (String × W)),
      AMap.keys m1 = AMap.keys m2 →
      AMap.keys (AMap.erase m1 k) = AMap.keys (AMap.erase m2 k) := by
  intro m1
  induction m1 with
  | nil =>
    intro m2 h
    cases m2 with
    | nil => rfl
    | cons b t2 => exact absurd h (by simp [AMap.keys])
  | cons a t1 ih =>
    intro m2 h
    cases m2 with
    | nil => exact absurd h (by simp [AMap.keys])
    | cons b t2 =>
      simp only [AMap.keys, List.map_cons, List.cons.injEq] at h
      obtain ⟨h1, h2⟩ := h
      unfold AMap.erase
      rw [← h1]
      by_cases heq : a.1 = k
      · rw [if_pos heq, if_pos heq]
        exact h2
      · rw [if_neg heq, if_neg heq]
        have htail := ih t2 (by simpa [AMap.keys] using h2)
        simp only [AMap.keys, List.map_cons] at htail ⊢
        rw [h1, htail]

theorem AMap.keys_eraseAll_congr (ids : List String) {V W : Type} :
    ∀ (m1 : List (String × V)) (m2 : List (String × W)),
      AMap.keys m1 = AMap.keys m2 →
      AMap.keys (ids.foldl AMap.erase m1) = AMap.keys (ids.foldl AMap.erase m2) := by
  induction ids with
  | nil => intro m1 m2 h; exact h
  | cons i t ih =>
    intro m1 m2 h
    simp only [List.foldl_cons]
    exact ih _ _ (AMap.keys_erase_congr i m1 m2 h)

theorem AMap.keys_map_value {V W : Type} (f : V → W) (m : List (String × V)) :
    AMap.keys (m.map (fun p => (p.1, f p.2))) = AMap.keys m := by
  induction m with
  | nil => rfl
  | cons a t ih => simp only [AMap.keys, List.map_cons] at ih ⊢; rw [ih]

theorem recordSighting_keys (mn : Int) (p : String) (l : Bool) (id : String) (r : Int)
    (n : Nat) (seen : List (String × Nat)) (rssis : List (String × Int))
    (h : AMap.keys seen = AMap.keys rssis) :
    AMap.keys (recordSighting mn p l id r n seen rssis).1
      = AMap.keys (recordSighting mn p l id r n seen rssis).2 := by
  unfold recordSighting
  split_ifs with h1 h2 h3
  · exact AMap.keys_insert_congr id n r seen rssis h
  · exact AMap.keys_insert_congr id n r seen rssis h
  · exact h
  · exact h

theorem purge_keys (now w mx : Nat) (seen : List (String × Nat))
    (rssis : List (String × Int)) (h : AMap.keys seen = AMap.keys rssis) :
    AMap.keys (purge now w mx seen rssis).1 = AMap.keys (purge now w mx seen rssis).2 := by
  unfold purge
  split_ifs with h1 h2
  · show AMap.keys (seen.map (fun p => (p.1, (p.2 + w) % U32))) = AMap.keys rssis
    exact (AMap.keys_map_value (fun t => (t + w) % U32) seen).trans h
  · exact AMap.keys_eraseAll_congr _ seen rssis h
  · exact h

/-- C5: after any sequence of recorded sightings and purges, the
sighting-timestamp map and the RSSI map hold exactly the same key set —
the two entries for an id are created and erased together. -/
theorem sighting_rssi_key_sets (ops : List SightOp) :
    ∀ (st : List (String × Nat) × List (String × Int)),
      AMap.keys st.1 = AMap.keys st.2 →
      AMap.keys (runOps st ops).1 = AMap.keys (runOps st ops).2 := by
  induction ops with
  | nil => intro st h; exact h
  | cons op t ih =>
    intro st h
    unfold runOps
    simp only [List.foldl_cons]
    refine ih (applyOp st op) ?_
    cases op with
    | sighting mn p l id r n => exact recordSighting_keys mn p l id r n st.1 st.2 h
    | purging n w mx => exact purge_keys n w mx st.1 st.2 h

theorem sighting_rssi_key_sets_witness :
    AMap.keys (runOps ([], [])
        [SightOp.sighting (-80) "xx:xx:xx:xx:xx:xx" false "aa" (-40) 5,
          SightOp.purging 100000 0 60000]).1
      = AMap.keys (runOps ([], [])
        [SightOp.sighting (-80) "xx:xx:xx:xx:xx:xx" false "aa" (-40) 5,
          SightOp.purging 100000 0 60000]).2 :=
  sighting_rssi_key_sets
    [SightOp.sighting (-80) "xx:xx:xx:xx:xx:xx" false "aa" (-40) 5,
      SightOp.purging 100000 0 60000] ([], []) rfl

/-!
## Scan watchdog (C6)
-/

/-- A tick of `doBTScan` while a scan is running and the watchdog has not
expired changes none of the scan-supervision fields (only the sighting maps,
through the purge). -/
theorem scanTick_quiet (maxNS : Nat) (u : ScanState) (t : Nat)
    (hw : u.isWifiIsOn = false) (hs : u.isScanning = true)
    (hq : usub32 t u.scanningWatchdogMillis ≤ 15000) :
    (doBTScanTick maxNS u t).btScanWDExpos = u.btScanWDExpos
    ∧ (doBTScanTick maxNS u t).scanningWatchdogMillis = u.scanningWatchdogMillis
    ∧ (doBTScanTick maxNS u t).isScanning = true
    ∧ (doBTScanTick maxNS u t).isWifiIsOn = false := by
  have hwd : ¬ (15000 < usub32 t u.scanningWatchdogMillis) := not_lt.mpr hq
  unfold doBTScanTick
  simp [hw, hs, hwd]

theorem scanTick_quiet_run (maxNS : Nat) :
    ∀ (ts : List Nat) (u : ScanState),
      u.isWifiIsOn = false → u.isScanning = true →
      (∀ t ∈ ts, usub32 t u.scanningWatchdogMillis ≤ 15000) →
      (ts.foldl (doBTScanTick maxNS) u).btScanWDExpos = u.btScanWDExpos := by
  intro ts
  induction ts with
  | nil => intro u _ _ _; rfl
  | cons t ts2 ih =>
    intro u hw hs hq
    simp only [List.foldl_cons]
    obtain ⟨hexp, hwdm, hsc, hw2⟩ :=
      scanTick_quiet maxNS u t hw hs (hq t (List.mem_cons_self t ts2))
    have hq2 : ∀ t2 ∈ ts2,
        usub32 t2 (doBTScanTick maxNS u t).scanningWatchdogMillis ≤ 15000 := by
      intro t2 ht2
      rw [hwdm]
      exact hq t2 (List.mem_cons_of_mem t ht2)
    rw [ih (doBTScanTick maxNS u t) hw2 hsc hq2, hexp]

/-- A supervisor state in which a scan was started at watchdog time 0 and
is still pending (no completion callback has run). -/
def scanStartState (e : Nat) (seen : List (String × Nat))
    (rssis : List (String × Int)) : ScanState :=
  { firstRun := false, wifiOnStartMillis := 0, isScanning := true, isWifiIsOn := false,
    scanningWatchdogMillis := 0, btScanWDExpos := e, seen := seen, rssis := rssis }

/-- C6: with a scan started at `t = 0`, no completion callback, and the
hard-coded 15000 ms watchdog ceiling, the tick at `t = 15001` forces a
restart (scanning again, watchdog re-armed at 15001) and increments the
watchdog-expiration counter exactly once; any further ticks while the
restarted scan is pending and within a full ceiling of the new arm time do
not increment it again. -/
theorem scan_watchdog_single_expiry (maxNS e : Nat) (seen : List (String × Nat))
    (rssis : List (String × Int)) (he : e + 1 < U32) :
    (doBTScanTick maxNS (scanStartState e seen rssis) 15001).btScanWDExpos = e + 1
    ∧ (doBTScanTick maxNS (scanStartState e seen rssis) 15001).isScanning = true
    ∧ (doBTScanTick maxNS (scanStartState e seen rssis) 15001).scanningWatchdogMillis = 15001
    ∧ ∀ (ts : List Nat), (∀ t ∈ ts, usub32 t 15001 ≤ 15000) →
        (ts.foldl (doBTScanTick maxNS)
            (doBTScanTick maxNS (scanStartState e seen rssis) 15001)).btScanWDExpos
          = e + 1 := by
  have hw32 : usub32 15001 0 = 15001 := by decide
  have hexp : (doBTScanTick maxNS (scanStartState e seen rssis) 15001).btScanWDExpos
      = e + 1 := by
    unfold doBTScanTick scanStartState
    simp [hw32]
    exact Nat.mod_eq_of_lt he
  have hsc : (doBTScanTick maxNS (scanStartState e seen rssis) 15001).isScanning = true := by
    unfold doBTScanTick scanStartState
    simp [hw32]
  have hwdm : (doBTScanTick maxNS (scanStartState e seen rssis) 15001).scanningWatchdogMillis
      = 15001 := by
    unfold doBTScanTick scanStartState
    simp [hw32]
  have hwifi : (doBTScanTick maxNS (scanStartState e seen rssis) 15001).isWifiIsOn
      = false := by
    unfold doBTScanTick scanStartState
    simp [hw32]
  refine ⟨hexp, hsc, hwdm, ?_⟩
  intro ts hq
  rw [scanTick_quiet_run maxNS ts _ hwifi hsc ?_, hexp]
  intro t ht
  rw [hwdm]
  exact hq t ht

theorem scan_watchdog_single_expiry_witness :
    (doBTScanTick 60000 (scanStartState 0 [] []) 15001).btScanWDExpos = 1
    ∧ ([15002, 20000, 30001].foldl (doBTScanTick 60000)
        (doBTScanTick 60000 (scanStartState 0 [] []) 15001)).btScanWDExpos = 1 :=
  ⟨(scan_watchdog_single_expiry 60000 0 [] [] (by decide)).1,
    (scan_watchdog_single_expiry 60000 0 [] [] (by decide)).2.2.2
      [15002, 20000, 30001] (by decide)⟩

/-!
## Relay writes only on transitions (C7)
-/

theorem switchTick_pin (seen : List (String × Nat)) (paired : String) (st : RelayState) :
    ((switchTick seen paired st).1).devicePin = derivedOnState seen paired := by
  rcases Bool.eq_false_or_eq_true (derivedOnState seen paired) with hd | hd <;>
    rcases Bool.eq_false_or_eq_true st.devicePin with hp | hp <;>
      simp [switchTick, hd, hp]

theorem switchTick_write (seen : List (String × Nat)) (paired : String) (st : RelayState) :
    (switchTick seen paired st).2 = true ↔ derivedOnState seen paired ≠ st.devicePin := by
  rcases Bool.eq_false_or_eq_true (derivedOnState seen paired) with hd | hd <;>
    rcases Bool.eq_false_or_eq_true st.devicePin with hp | hp <;>
      simp [switchTick, hd, hp]

theorem relay_fold_no_write (paired : String) :
    ∀ (tables : List (List (String × Nat))) (st : RelayState) (c : Nat) (v : Bool),
      st.devicePin = v →
      (∀ s ∈ tables, derivedOnState s paired = v) →
      (tables.foldl (relayStep paired) (st, c)).2 = c := by
  intro tables
  induction tables with
  | nil => intro st c v _ _; rfl
  | cons s t ih =>
    intro st c v hpin hsame
    simp only [List.foldl_cons]
    have hw : (switchTick s paired st).2 = false := by
      rcases Bool.eq_false_or_eq_true (switchTick s paired st).2 with h | h
      · exact absurd ((hsame s (List.mem_cons_self s t)).trans hpin.symm)
          ((switchTick_write s paired st).mp h)
      · exact h
    have hstep : relayStep paired (st, c) s = ((switchTick s paired st).1, c) := by
      simp [relayStep, hw]
    rw [hstep]
    refine ih _ c v ?_ ?_
    · rw [switchTick_pin]
      exact hsame s (List.mem_cons_self s t)
    · intro s2 hs2
      exact hsame s2 (List.mem_cons_of_mem s hs2)

/-- C7: a `doHandleOnOffSwitching` tick writes the relay pin iff the derived
`onState` differs from the pin left by the previous tick (i.e. only on an
`onState` transition), and across any run of ticks whose derived `onState`
never changes, no write at all is issued. -/
theorem relay_write_on_transition (paired : String) (st : RelayState)
    (seen1 : List (String × Nat)) :
    (∀ seen2, (switchTick seen2 paired (switchTick seen1 paired st).1).2 = true
        ↔ derivedOnState seen2 paired ≠ derivedOnState seen1 paired)
    ∧ ∀ (tables : List (List (String × Nat))),
        (∀ s ∈ tables, derivedOnState s paired = derivedOnState seen1 paired) →
        (relayRun paired (switchTick seen1 paired st).1 tables).2 = 0 := by
  have hpin := switchTick_pin seen1 paired st
  constructor
  · intro seen2
    rw [switchTick_write, hpin]
  · intro tables hsame
    exact relay_fold_no_write paired tables _ 0 _ hpin hsame

theorem relay_write_on_transition_witness :
    (relayRun "aa" (switchTick [("aa", 1)] "aa" { onState := false, devicePin := false }).1
        [[("aa", 2)], [("aa", 3)], [("aa", 4)]]).2 = 0 :=
  (relay_write_on_transition "aa" { onState := false, devicePin := false } [("aa", 1)]).2
    [[("aa", 2)], [("aa", 3)], [("aa", 4)]] (by decide)

/-!
## Nearest-device selection (C8)
-/

/-- Characterization of the nearest-device loop of `doCheckLearnTask`: over
a lexicographically sorted table of non-empty ids it lands on an entry of
maximal RSSI, and on the lexicographically least such entry (the update
comparison is strict, so an earlier equal-RSSI entry is kept). -/
theorem nearestFold_char (rssis : List (String × Int)) :
    ∀ (seen : List (String × Nat)),
      seen ≠ [] →
      seen.Pairwise (fun p q => strLt p.1 q.1) →
      (∀ p ∈ seen, p.1 ≠ "") →
      ∃ tc, ((nearestFold rssis seen).1, tc) ∈ seen
        ∧ (nearestFold rssis seen).2 = AMap.lookupD rssis (nearestFold rssis seen).1 0
        ∧ (∀ p ∈ seen, AMap.lookupD rssis p.1 0 ≤ (nearestFold rssis seen).2)
        ∧ (∀ p ∈ seen, AMap.lookupD rssis p.1 0 = (nearestFold rssis seen).2 →
            (nearestFold rssis seen).1 = p.1 ∨ strLt (nearestFold rssis seen).1 p.1) := by
  intro seen
  induction seen using List.reverseRecOn with
  | nil => intro h; exact absurd rfl h
  | append_singleton l x ih =>
    intro _ hsort hids
    rcases eq_or_ne l [] with rfl | hl
    · have hx : nearestFold rssis ([] ++ [x]) = (x.1, AMap.lookupD rssis x.1 0) := by
        unfold nearestFold
        simp only [List.nil_append, List.foldl_cons, List.foldl_nil]
        simp
      rw [hx]
      refine ⟨x.2, ?_, rfl, ?_, ?_⟩
      · simp
      · intro p hp
        simp only [List.nil_append, List.mem_singleton] at hp
        subst hp
        exact le_refl _
      · intro p hp _
        simp only [List.nil_append, List.mem_singleton] at hp
        subst hp
        exact Or.inl rfl
    · have hsortl : l.Pairwise (fun p q => strLt p.1 q.1) :=
        (List.pairwise_append.mp hsort).1
      have hcross : ∀ p ∈ l, strLt p.1 x.1 := by
        intro p hp
        exact (List.pairwise_append.mp hsort).2.2 p hp x (List.mem_singleton.mpr rfl)
      have hidsl : ∀ p ∈ l, p.1 ≠ "" := by
        intro p hp
        exact hids p (List.mem_append.mpr (Or.inl hp))
      obtain ⟨tc, hmem, hval, hmax, hleast⟩ := ih hl hsortl hidsl
      have hstepeq : nearestFold rssis (l ++ [x])
          = if (nearestFold rssis l).1 = "" ∨
                AMap.lookupD rssis x.1 0 > (nearestFold rssis l).2 then
              (x.1, AMap.lookupD rssis x.1 0)
            else nearestFold rssis l := by
        unfold nearestFold
        rw [List.foldl_append]
        simp only [List.foldl_cons, List.foldl_nil]
      have hcne : (nearestFold rssis l).1 ≠ "" := hidsl _ hmem
      by_cases hgt : AMap.lookupD rssis x.1 0 > (nearestFold rssis l).2
      · have hx : nearestFold rssis (l ++ [x]) = (x.1, AMap.lookupD rssis x.1 0) := by
          rw [hstepeq, if_pos (Or.inr hgt)]
        rw [hx]
        refine ⟨x.2, ?_, rfl, ?_, ?_⟩
        · simp
        · intro p hp
          rcases List.mem_append.mp hp with hp | hp
          · exact le_of_lt (lt_of_le_of_lt (hmax p hp) hgt)
          · rw [List.mem_singleton.mp hp]
        · intro p hp hpr
          rcases List.mem_append.mp hp with hp | hp
          · exact absurd hpr (ne_of_lt (lt_of_le_of_lt (hmax p hp) hgt))
          · rw [List.mem_singleton.mp hp]
            exact Or.inl rfl
      · have hx : nearestFold rssis (l ++ [x]) = nearestFold rssis l := by
          rw [hstepeq, if_neg]
          rintro (h | h)
          · exact hcne h
          · exact hgt h
        rw [hx]
        refine ⟨tc, ?_, hval, ?_, ?_⟩
        · exact List.mem_append.mpr (Or.inl hmem)
        · intro p hp
          rcases List.mem_append.mp hp with hp | hp
          · exact hmax p hp
          · rw [List.mem_singleton.mp hp]
            exact not_lt.mp hgt
        · intro p hp hpr
          rcases List.mem_append.mp hp with hp | hp
          · exact hleast p hp hpr
          · rw [List.mem_singleton.mp hp]
            exact Or.inr (hcross _ hmem)

/-- C8: over an unchanged sighting table containing two distinct records of
equal maximal RSSI, the nearest-device selection of `doCheckLearnTask` is a
fixed function of the table and resolves the tie to the lexicographically
smallest id of maximal RSSI — repeated calls always return that same id. -/
theorem nearest_device_tiebreak (seen : List (String × Nat)) (rssis : List (String × Int))
    (a b : String) (ta tb : Nat) (r : Int)
    (hsort : seen.Pairwise (fun p q => strLt p.1 q.1))
    (hids : ∀ p ∈ seen, p.1 ≠ "")
    (ha : (a, ta) ∈ seen) (hb : (b, tb) ∈ seen) (hab : a ≠ b)
    (hra : AMap.lookupD rssis a 0 = r) (hrb : AMap.lookupD rssis b 0 = r)
    (hmax : ∀ p ∈ seen, AMap.lookupD rssis p.1 0 ≤ r) :
    ∃ tc, ((nearestFold rssis seen).1, tc) ∈ seen
      ∧ AMap.lookupD rssis (nearestFold rssis seen).1 0 = r
      ∧ ∀ p ∈ seen, AMap.lookupD rssis p.1 0 = r →
          (nearestFold rssis seen).1 = p.1 ∨ strLt (nearestFold rssis seen).1 p.1 := by
  obtain ⟨tc, hmem, hval, hmaxc, hleast⟩ :=
    nearestFold_char rssis seen (List.ne_nil_of_mem ha) hsort hids
  have h1 : (nearestFold rssis seen).2 ≤ r := by
    rw [hval]
    exact hmax _ hmem
  have h2 : r ≤ (nearestFold rssis seen).2 := by
    rw [← hra]
    exact hmaxc (a, ta) ha
  have hn2 : (nearestFold rssis seen).2 = r := le_antisymm h1 h2
  refine ⟨tc, hmem, hval.symm.trans hn2, ?_⟩
  intro p hp hpr
  exact hleast p hp (hpr.trans hn2.symm)

theorem nearest_device_tiebreak_witness :
    ∃ tc, ((nearestFold [("aa", -40), ("bb", -40)] [("aa", 1), ("bb", 2)]).1, tc)
        ∈ [("aa", 1), ("bb", 2)]
      ∧ AMap.lookupD [("aa", -40), ("bb", -40)]
          (nearestFold [("aa", -40), ("bb", -40)] [("aa", 1), ("bb", 2)]).1 0 = -40
      ∧ ∀ p ∈ [("aa", 1), ("bb", 2)],
          AMap.lookupD [("aa", -40), ("bb", -40)] p.1 0 = -40 →
            (nearestFold [("aa", -40), ("bb", -40)] [("aa", 1), ("bb", 2)]).1 = p.1
            ∨ strLt (nearestFold [("aa", -40), ("bb", -40)] [("aa", 1), ("bb", 2)]).1 p.1 :=
  nearest_device_tiebreak [("aa", 1), ("bb", 2)] [("aa", -40), ("bb", -40)]
    "aa" "bb" 1 2 (-40) (by decide) (by decide) (by decide) (by decide) (by decide)
    (by decide) (by decide) (by decide)

/-!
## Learning over an empty table (C9)
-/

theorem lowerStr_eq_empty {s : String} : lowerStr s = "" ↔ s = "" := by
  cases s with
  | mk d =>
    constructor
    · intro h
      have hd : d.map Char.toLower = ([] : List Char) := congrArg String.data h
      have hnil : d = [] := by
        rcases d with - | ⟨c, t⟩
        · rfl
        · exact absurd hd (by simp)
      exact congrArg String.mk hnil
    · intro h
      rw [h]
      rfl

/-- C9: if the learning discovery window elapses while the sighting table is
empty, `doCheckLearnTask` pairs the device to the empty string — not the
"xx:xx:xx:xx:xx:xx" no-target sentinel — and persists it (`saveSettings`)
whenever the stored target differs; the empty target is not the sentinel,
so subsequent non-learning sightings of any real (nonempty) beacon id are
all filtered out — no beacon can match the empty target. -/
theorem learn_empty_table (rssis : List (String × Int)) (paired : String)
    (hp : paired ≠ "") :
    learnComplete [] rssis paired = ("", true)
    ∧ ("" : String) ≠ sentinelAddress
    ∧ eqIgnoreCase "" sentinelAddress = false
    ∧ ∀ (maxNear : Int) (id : String) (rssi : Int) (now : Nat)
        (seen : List (String × Nat)) (rs : List (String × Int)), id ≠ "" →
        recordSighting maxNear "" false id rssi now seen rs = (seen, rs) := by
  have hnl : lowerStr paired ≠ "" := fun h => hp (lowerStr_eq_empty.mp h)
  have hb : eqIgnoreCase paired "" = false := by
    unfold eqIgnoreCase
    exact beq_eq_false_iff_ne.mpr (by intro h; exact hnl h)
  refine ⟨?_, by decide, by decide, ?_⟩
  · have hred : learnComplete [] rssis paired
        = if ¬ eqIgnoreCase paired "" then ("", true) else (paired, false) := rfl
    rw [hred, hb]
    simp
  · intro maxNear id rssi now seen rs hid
    have hbid : eqIgnoreCase "" id = false := by
      unfold eqIgnoreCase
      refine beq_eq_false_iff_ne.mpr ?_
      intro h
      exact hid (lowerStr_eq_empty.mp h.symm)
    have hbsent : eqIgnoreCase "" sentinelAddress = false := by decide
    unfold recordSighting
    by_cases hr : rssi > maxNear
    · simp [hr, hbsent, hbid]
    · simp [hr]

theorem learn_empty_table_witness :
    learnComplete [] [] "xx:xx:xx:xx:xx:xx" = ("", true)
    ∧ recordSighting (-80) "" false "aa" (-40) 5 [] [] = ([], []) :=
  ⟨(learn_empty_table [] "xx:xx:xx:xx:xx:xx" (by decide)).1,
    (learn_empty_table [] "xx:xx:xx:xx:xx:xx" (by decide)).2.2.2
      (-80) "aa" (-40) 5 [] [] (by decide)⟩
